import Mathlib

/-!
# Verification of the `brown` flowable layout core (kureta/neoscore)

Shallow embedding of the scene-graph and break-splitting code in
`src/brown/core/graphic_object.py`, `src/brown/core/new_line.py` and
`src/brown/utils/anchored_point.py`.

Scalar lengths (`Unit` in the source) are modelled as `Int`: `Unit`
arithmetic normalizes to a shared base value and compares by that value,
so integer-valued scenarios are represented exactly.

The `FlowableFrame` helpers (`_last_break_index_at`, `_dist_to_line_end`,
`_map_to_doc`, `pos_in_frame_of`), `Document.doc_pos_of`, `Point` and
`Unit` are not under `src/`; those definitions are modelled from the
spec, as marked in their doc comments.
-/

set_option linter.unusedVariables false
set_option linter.unnecessarySimpa false

namespace Brown

/-- `Point` from `brown/utils/point.py` (not under `src/`).
Modelled from the spec: `(x: Unit, y: Unit)`, optionally with a page
index when representing an absolute document position; arithmetic is
componentwise (the repository's tests subtract page components as well:
`test_map_between_items` expects page `4 - 1 = 3`). A plain `(x, y)`
point is represented with page `0`. -/
structure Point where
  x : Int
  y : Int
  page : Int
  deriving DecidableEq, Repr, Inhabited

instance : Add Point := ⟨fun p q => ⟨p.x + q.x, p.y + q.y, p.page + q.page⟩⟩

instance : Sub Point := ⟨fun p q => ⟨p.x - q.x, p.y - q.y, p.page - q.page⟩⟩

instance : Neg Point := ⟨fun p => ⟨-p.x, -p.y, -p.page⟩⟩

theorem Point.add_def (p q : Point) :
    p + q = ⟨p.x + q.x, p.y + q.y, p.page + q.page⟩ := rfl

theorem Point.sub_def (p q : Point) :
    p - q = ⟨p.x - q.x, p.y - q.y, p.page - q.page⟩ := rfl

theorem Point.neg_def (p : Point) : -p = ⟨-p.x, -p.y, -p.page⟩ := rfl

/-- Errors signalled by `AnchoredPoint.__add__` / `__sub__`
(`brown/utils/anchored_point.py`, lines 73-99). -/
inductive APError where
  | typeError
  | attributeError
  deriving DecidableEq, Repr

/-- `AnchoredPoint` from `src/brown/utils/anchored_point.py`: a point
with an optional `parent` anchor. Parents are `GraphicObject`s compared
by Python object identity; we model them as `Option Nat` node ids
(`none` = unanchored, acting like a plain `Point`). -/
structure AnchoredPoint where
  x : Int
  y : Int
  parent : Option Nat
  deriving DecidableEq, Repr

/-- `AnchoredPoint.__add__` (anchored_point.py lines 73-85): the
type-mismatch `TypeError` branch cannot fire here since both arguments
are `AnchoredPoint`s; mismatched parents raise `AttributeError`,
otherwise the result is componentwise with the shared parent. -/
def AnchoredPoint.add (p q : AnchoredPoint) : Except APError AnchoredPoint :=
  if p.parent ≠ q.parent then
    Except.error APError.attributeError
  else
    Except.ok ⟨p.x + q.x, p.y + q.y, p.parent⟩

/-- `AnchoredPoint.__sub__` (anchored_point.py lines 87-99). -/
def AnchoredPoint.sub (p q : AnchoredPoint) : Except APError AnchoredPoint :=
  if p.parent ≠ q.parent then
    Except.error APError.attributeError
  else
    Except.ok ⟨p.x - q.x, p.y - q.y, p.parent⟩

/-- `GraphicObject.map_between_items` (graphic_object.py lines 175-190):
`Document.doc_pos_of(destination) - Document.doc_pos_of(source)`.
`Document.doc_pos_of` is not under `src/`; it is abstracted as an
arbitrary assignment `docPos` of absolute document positions to node
ids, which is all the subtraction depends on. -/
def map_between_items (docPos : Nat → Point) (source destination : Nat) : Point :=
  docPos destination - docPos source

/-- Error signalled by the default partial-render methods
(graphic_object.py lines 321-389). -/
inductive RenderError where
  | notImplemented
  deriving DecidableEq, Repr

/-- `GraphicObject._render_before_break` default implementation
(graphic_object.py lines 321-342): unconditionally raises
`NotImplementedError`. -/
def render_before_break_default (localStartX : Int) (start stop : Point) :
    Except RenderError Unit :=
  Except.error RenderError.notImplemented

/-- `GraphicObject._render_after_break` default implementation
(graphic_object.py lines 344-365): unconditionally raises
`NotImplementedError`. -/
def render_after_break_default (localStartX : Int) (start stop : Point) :
    Except RenderError Unit :=
  Except.error RenderError.notImplemented

/-- `GraphicObject._render_spanning_continuation` default implementation
(graphic_object.py lines 367-389): unconditionally raises
`NotImplementedError`. -/
def render_spanning_continuation_default (localStartX : Int) (start stop : Point) :
    Except RenderError Unit :=
  Except.error RenderError.notImplemented

/-- `GraphicObject.all_descendants` (graphic_object.py lines 139-152),
parameterised by the `children` relation of the tree (Python iterates a
set; we fix a list order, which is irrelevant to membership):
for each child, yield the child's children, then the child itself. -/
def all_descendants (children : Nat → List Nat) (n : Nat) : List Nat :=
  (children n).foldr (fun child acc => (children child ++ [child]) ++ acc) []

/-- Mutable scene-graph state for the `parent` setter: each node's
parent pointer (`none` = unset) and each node's `children` set. -/
structure TreeState where
  parent : Nat → Option Nat
  children : Nat → Finset Nat

/-- The node id of the process-wide root `brown.document` that a `None`
parent normalizes to (graphic_object.py lines 125-126). -/
def documentId : Nat := 0

/-- The `GraphicObject.parent` setter (graphic_object.py lines 121-128):
unregister from the old parent's children if present, normalize `None`
to the document, set the parent field, register with the new parent.
There is no cycle or validity check of any kind. -/
def set_parent (s : TreeState) (self : Nat) (value : Option Nat) : TreeState :=
  let s1 : TreeState :=
    match s.parent self with
    | some p =>
        { s with children := fun n =>
            if n = p then (s.children p).erase self else s.children n }
    | none => s
  let v := value.getD documentId
  { parent := fun n => if n = self then some v else s1.parent n,
    children := fun n =>
      if n = v then insert self (s1.children n) else s1.children n }

/-- Modelled from the spec: a `LayoutController`/`NewLine` as the
break-splitting algorithm sees it (spec §3): `local_x` — the local
x-offset of the line within the frame; `pos` — the line start's
absolute position (with page); `length` — the line's length.
In `_render_flowable` the controller's `x` attribute is its frame-local
x and `pos`/`length` are its absolute position and line length. -/
structure NewLineCtrl where
  local_x : Int
  pos : Point
  length : Int
  deriving DecidableEq, Repr, Inhabited

/-- Modelled from the spec: a `FlowableFrame`'s layout data (spec §3):
an ordered sequence of layout controllers, sorted ascending by local
x-offset, contiguous and non-overlapping, first local x = 0. -/
structure Frame where
  layout_controllers : List NewLineCtrl
  deriving DecidableEq, Repr

/-- Modelled from the spec (§4.2 `lineIndexContaining`), the missing
`FlowableFrame._last_break_index_at`: the index of the last controller
whose `local_x <= localX`. -/
def lastIndexLE : List NewLineCtrl → Int → Nat
  | [], _ => 0
  | [_], _ => 0
  | _ :: c :: rest, x => if c.local_x ≤ x then lastIndexLE (c :: rest) x + 1 else 0

/-- `Frame._last_break_index_at` on the frame's controller list. -/
def Frame.last_break_index_at (f : Frame) (x : Int) : Nat :=
  lastIndexLE f.layout_controllers x

/-- Modelled from the spec (§4.2 `remainingWidthOnLine`, with the sign
convention fixed by §4.3 and by the use sites in `_render_flowable`),
the missing `FlowableFrame._dist_to_line_end`: the *negative* distance
from `localX` to the end of its line, i.e. `localX - line_end`, so that
`breakable_width + dist < 0` exactly when the node fits on its line
(graphic_object.py line 263) and `dist * -1` is the first segment's
length (line 271). -/
def Frame.dist_to_line_end (f : Frame) (x : Int) : Int :=
  let c := f.layout_controllers.getD (f.last_break_index_at x) default
  x - (c.local_x + c.length)

/-- Modelled from the spec (§4.2 `mapLocalToAbsolute`), the missing
`FlowableFrame._map_to_doc`: for the controller containing `p.x`,
`controller.absolute_pos + (p.x - controller.local_x, p.y)` — absolute
positions are relative to the start of the current line. The page of
the input (frame-local) point is ignored. -/
def Frame.map_to_doc (f : Frame) (p : Point) : Point :=
  let c := f.layout_controllers.getD (f.last_break_index_at p.x) default
  ⟨c.pos.x + (p.x - c.local_x), c.pos.y + p.y, c.pos.page⟩

/-- One rendering dispatch issued by `render()`: a full render
(`_render_complete`), or one of the three partial renders with the
segment's local start offset within the node's breakable span and the
absolute start/stop points. -/
inductive RenderCall where
  | complete (pos : Point)
  | before (localStartX : Int) (start stop : Point)
  | spanning (localStartX : Int) (start stop : Point)
  | after (localStartX : Int) (start stop : Point)
  deriving DecidableEq, Repr

/-- The spanning-continuation loop of `_render_flowable`
(graphic_object.py lines 276-291): `remaining` is `remaining_x`, `cur`
is `current_line` (assigned at the top of each iteration, before the
`remaining_x > current_line.length` test), `rest` is the slice of
controllers from `first_line_i + 1` on. Returns the final `remaining_x`,
the final `current_line`, and the spanning dispatches in order. -/
def spanLoop (w y : Int) : Int → NewLineCtrl → List NewLineCtrl →
    Int × NewLineCtrl × List RenderCall
  | remaining, cur, [] => (remaining, cur, [])
  | remaining, _, c :: cs =>
    if c.length < remaining then
      let s : Point := ⟨c.pos.x, c.pos.y + y, c.pos.page⟩
      let call := RenderCall.spanning (w - remaining) s (s + ⟨c.length, 0, 0⟩)
      let r := spanLoop w y (remaining - c.length) c cs
      (r.1, r.2.1, call :: r.2.2)
    else
      (remaining, c, [])

/-- `GraphicObject._render_flowable` (graphic_object.py lines 252-299),
given the node's frame-local position `pif` (the source's
`pos_in_flowable = frame.pos_in_frame_of(self)`) and its
`breakable_width` `w`, returning the dispatches in order. The node's
absolute document position `Document.doc_pos_of(self)` is resolved
through the frame's mapping (`f.map_to_doc pif`), per spec §4.1:
position resolution inside a flowable region goes through the frame's
own position-mapping function. -/
def render_flowable (f : Frame) (pif : Point) (w : Int) : List RenderCall :=
  let remaining₀ := w + f.dist_to_line_end pif.x
  if remaining₀ < 0 then
    [RenderCall.complete (f.map_to_doc pif)]
  else
    let i₀ := f.last_break_index_at pif.x
    let startPos := f.map_to_doc pif
    let firstLen := f.dist_to_line_end pif.x * (-1)
    let beforeCall := RenderCall.before 0 startPos (startPos + ⟨firstLen, 0, 0⟩)
    let cur₀ := f.layout_controllers.getD i₀ default
    let rest := f.layout_controllers.drop (i₀ + 1)
    let res := spanLoop w pif.y remaining₀ cur₀ rest
    let afterStart := f.map_to_doc ⟨res.2.1.local_x, pif.y, 0⟩
    let afterCall := RenderCall.after (w - res.1) afterStart (afterStart + ⟨res.1, 0, 0⟩)
    beforeCall :: res.2.2 ++ [afterCall]

/-- The width of a dispatched segment: `stop.x - start.x` for the three
partial renders. (A `complete` dispatch draws the whole node; it only
appears alone, in the fast path, and contributes no partial segment.) -/
def segWidth : RenderCall → Int
  | RenderCall.complete _ => 0
  | RenderCall.before _ s t => t.x - s.x
  | RenderCall.spanning _ s t => t.x - s.x
  | RenderCall.after _ s t => t.x - s.x

/-- Sum of the dispatched segments' widths. -/
def sumWidths (calls : List RenderCall) : Int :=
  (calls.map segWidth).sum

def isComplete : RenderCall → Bool
  | RenderCall.complete _ => true
  | _ => false

def isBefore : RenderCall → Bool
  | RenderCall.before _ _ _ => true
  | _ => false

def isSpanning : RenderCall → Bool
  | RenderCall.spanning _ _ _ => true
  | _ => false

def isAfter : RenderCall → Bool
  | RenderCall.after _ _ _ => true
  | _ => false

/-- The number of lines of the frame's layout controllers covered by a
breakable span starting at frame-local `x` with width `w`: the node's
own starting line plus every later controller whose line start lies
strictly before the span's end `x + w`. -/
def linesCovered (f : Frame) (x w : Int) : Nat :=
  1 + ((f.layout_controllers.drop (f.last_break_index_at x + 1)).filter
        (fun c => decide (c.local_x < x + w))).length

/-- Well-formedness of a controller list starting at local offset `X`
(spec §3 invariant: contiguous, non-overlapping, ascending): each
controller starts where the previous one ended and has positive
length. -/
def contigFrom : Int → List NewLineCtrl → Prop
  | _, [] => True
  | X, c :: cs => c.local_x = X ∧ 0 < c.length ∧ contigFrom (X + c.length) cs

/-- Total flowed length of a controller list. -/
def sumLen (cs : List NewLineCtrl) : Int :=
  (cs.map NewLineCtrl.length).sum

/-- Decision procedure for `contigFrom`, so concrete frames can be
checked by `decide`. -/
def contigFromDec : (X : Int) → (cs : List NewLineCtrl) → Decidable (contigFrom X cs)
  | _, [] => Decidable.isTrue trivial
  | X, c :: cs =>
    letI : Decidable (contigFrom (X + c.length) cs) := contigFromDec (X + c.length) cs
    (inferInstance : Decidable (c.local_x = X ∧ 0 < c.length ∧ contigFrom (X + c.length) cs))

instance (X : Int) (cs : List NewLineCtrl) : Decidable (contigFrom X cs) :=
  contigFromDec X cs

/-- `Paper` as `NewLine.length` needs it: a paper exposing the page's
live (printable) width. Modelled from the spec (§6): the document/page
metrics provider exposes a live width per page. -/
structure Paper where
  live_width : Int
  deriving DecidableEq, Repr

/-- A page, exposing its paper. Modelled from the spec (§6). -/
structure PageModel where
  paper : Paper
  deriving DecidableEq, Repr

/-- The flowable frame as `NewLine.height` sees it: its line height
(spec §3: `height` — vertical extent of one flowed line). -/
structure FlowableFrameRef where
  height : Int
  deriving DecidableEq, Repr

/-- `NewLine` from `src/brown/core/new_line.py`: a line-break layout
controller with its page-relative position `pos`, its page, its parent
frame, its frame-local x and the gap to the next line. -/
structure NewLine where
  pos : Point
  page : PageModel
  flowable_frame : FlowableFrameRef
  local_x : Int
  offset_y : Int
  deriving DecidableEq, Repr

/-- `NewLine.length` (new_line.py lines 43-49):
`page.paper.live_width - pos.x`. -/
def NewLine.length (nl : NewLine) : Int :=
  nl.page.paper.live_width - nl.pos.x

/-- `NewLine.height` (new_line.py lines 51-57): the frame's height. -/
def NewLine.height (nl : NewLine) : Int :=
  nl.flowable_frame.height

/-- `NewLine.doc_end_pos` (new_line.py lines 33-41):
`pos + Point(length, height)` (a two-component point, page 0). -/
def NewLine.doc_end_pos (nl : NewLine) : Point :=
  nl.pos + ⟨nl.length, nl.height, 0⟩

end Brown

namespace Brown

/-! ## Theorems -/

/-- C10: for every `NewLine`, the derived line length is
`live_width - pos.x`, so the x coordinate of `doc_end_pos` equals the
page's live width: every line extends exactly to the live-width
boundary. -/
theorem newline_ends_at_live_width (nl : NewLine) :
    nl.length = nl.page.paper.live_width - nl.pos.x ∧
    nl.doc_end_pos.x = nl.page.paper.live_width := by
  refine ⟨rfl, ?_⟩
  simp [NewLine.doc_end_pos, NewLine.length, Point.add_def]

/-- C7: `map_between_items` is antisymmetric:
`map_between_items(a, b) = -map_between_items(b, a)` for every
assignment of absolute document positions and every pair of nodes. -/
theorem map_between_items_antisymm (docPos : Nat → Point) (a b : Nat) :
    map_between_items docPos a b = -map_between_items docPos b a := by
  simp only [map_between_items, Point.sub_def, Point.neg_def, Point.mk.injEq]
  omega

/-- C9: the default implementations of the three partial-rendering
operations (`_render_before_break`, `_render_after_break`,
`_render_spanning_continuation`) always raise `NotImplementedError`,
for every argument. -/
theorem default_partial_renders_raise (localStartX : Int) (start stop : Point) :
    render_before_break_default localStartX start stop =
      Except.error RenderError.notImplemented ∧
    render_after_break_default localStartX start stop =
      Except.error RenderError.notImplemented ∧
    render_spanning_continuation_default localStartX start stop =
      Except.error RenderError.notImplemented :=
  ⟨rfl, rfl, rfl⟩

/-- C8: adding or subtracting two `AnchoredPoint`s with different
parents raises (`AttributeError`) at the arithmetic call; with the same
parent both succeed and return the componentwise result anchored to the
shared parent. -/
theorem anchored_point_arith (p q : AnchoredPoint) :
    (p.parent ≠ q.parent →
      p.add q = Except.error APError.attributeError ∧
      p.sub q = Except.error APError.attributeError) ∧
    (p.parent = q.parent →
      p.add q = Except.ok ⟨p.x + q.x, p.y + q.y, p.parent⟩ ∧
      p.sub q = Except.ok ⟨p.x - q.x, p.y - q.y, p.parent⟩) := by
  constructor <;> intro h <;>
    simp [AnchoredPoint.add, AnchoredPoint.sub, h]

/-- Witness for C8 at concrete inputs: parents `some 0` vs `some 1`
reject, matching parents `some 0` succeed componentwise. -/
theorem anchored_point_arith_witness :
    AnchoredPoint.add ⟨1, 2, some 0⟩ ⟨3, 4, some 1⟩ =
      Except.error APError.attributeError ∧
    AnchoredPoint.add ⟨1, 2, some 0⟩ ⟨3, 4, some 0⟩ =
      Except.ok ⟨1 + 3, 2 + 4, some 0⟩ := by
  refine ⟨((anchored_point_arith ⟨1, 2, some 0⟩ ⟨3, 4, some 1⟩).1 (by decide)).1, ?_⟩
  exact ((anchored_point_arith ⟨1, 2, some 0⟩ ⟨3, 4, some 0⟩).2 rfl).1

/-- A four-node chain `0 → 1 → 2 → 3` for exercising
`all_descendants`. -/
def chainChildren : Nat → List Nat :=
  fun n => if n = 0 then [1] else if n = 1 then [2] else if n = 2 then [3] else []

/-- C6 (failing input for the code): on the chain `0 → 1 → 2 → 3`,
`all_descendants` of node 0 yields only the child 1 and grandchild 2;
the great-grandchild 3 — a transitive child, since 3 is a child of the
yielded descendant 2 — is never yielded, contradicting the method's own
docstring ("recursively searches all of the object's children (and
their children, etc.)", graphic_object.py lines 139-152): the
implementation only iterates two levels and never recurses. -/
theorem all_descendants_misses_great_grandchild :
    all_descendants chainChildren 0 = [2, 1] ∧
    2 ∈ all_descendants chainChildren 0 ∧
    3 ∈ chainChildren 2 ∧
    3 ∉ all_descendants chainChildren 0 := by
  decide

/-- Concrete scene-graph state for C5: node 1 is a child of the
document (node 0), node 2 is a child of node 1 — so 2 is a descendant
of 1. -/
def ex5 : TreeState where
  parent := fun n => if n = 1 then some 0 else if n = 2 then some 1 else none
  children := fun n => if n = 0 then {1} else if n = 1 then {2} else ∅

/-- C5 (counterexample): re-parenting node 1 under its own descendant
node 2 does not fail — there is no cycle check in the `parent` setter
(graphic_object.py lines 121-128) — and it mutates both children sets:
1 is removed from the document's children and added to 2's children,
refuting "the children sets are left unchanged by the failed
operation". -/
theorem set_parent_under_descendant_mutates :
    ex5.parent 2 = some 1 ∧
    (set_parent ex5 1 (some 2)).children 2 ≠ ex5.children 2 ∧
    (set_parent ex5 1 (some 2)).children 0 ≠ ex5.children 0 ∧
    (set_parent ex5 1 (some 2)).parent 1 = some 2 := by
  decide

/-- C5 (amended): re-parenting performs no cycle check and never fails,
even when the new parent is the node itself or one of its descendants:
the node is unregistered from its old parent's children, its parent
field is set to the new parent, and it is registered with the new
parent's children. -/
theorem set_parent_reparents (s : TreeState) (self v p : Nat)
    (hp : s.parent self = some p) (hpv : p ≠ v) :
    (set_parent s self (some v)).parent self = some v ∧
    self ∈ (set_parent s self (some v)).children v ∧
    self ∉ (set_parent s self (some v)).children p := by
  simp only [set_parent, hp, Option.getD_some]
  refine ⟨by simp, ?_, ?_⟩
  · simp [Finset.mem_insert]
  · simp [hpv, Ne.symm hpv, Finset.not_mem_erase]

/-- Witness for C5's amended theorem: in `ex5`, re-parenting node 1
(old parent: the document, node 0) under its descendant node 2. -/
theorem set_parent_reparents_witness :
    (set_parent ex5 1 (some 2)).parent 1 = some 2 ∧
    1 ∈ (set_parent ex5 1 (some 2)).children 2 ∧
    1 ∉ (set_parent ex5 1 (some 2)).children 0 :=
  set_parent_reparents ex5 1 2 0 (by decide) (by decide)

/-! ## Lemmas about well-formed controller lists and the split loop -/

/-- In a contiguous controller list starting at `X`, every controller's
local x is at least `X`. -/
lemma contig_mem_lb : ∀ (X : Int) (cs : List NewLineCtrl), contigFrom X cs →
    ∀ c ∈ cs, X ≤ c.local_x
  | _, [], _, c, hc => absurd hc (List.not_mem_nil c)
  | X, a :: cs, h, c, hc => by
    obtain ⟨hax, halen, htail⟩ := h
    rcases List.mem_cons.mp hc with rfl | hmem
    · omega
    · have := contig_mem_lb (X + a.length) cs htail c hmem
      omega

/-- `List.getD` at the length of a prefix reads the head of the
suffix. -/
lemma getD_append_length {α : Type} (d : α) :
    ∀ (pre : List α) (c : α) (rest : List α),
      (pre ++ c :: rest).getD pre.length d = c
  | [], c, rest => rfl
  | a :: pre, c, rest => by
    simpa using getD_append_length d pre c rest

/-- `List.drop` one past the length of a prefix drops through the head
of the suffix. -/
lemma drop_append_length_succ {α : Type} :
    ∀ (pre : List α) (c : α) (rest : List α),
      (pre ++ c :: rest).drop (pre.length + 1) = rest
  | [], c, rest => rfl
  | a :: pre, c, rest => by
    simpa using drop_append_length_succ pre c rest

/-- Locating the controller owning a local x-offset: in a nonempty
contiguous list starting at `X ≤ x`, `lastIndexLE` finds a split
`cs = pre ++ c :: rest` at the index of the last controller whose
`local_x ≤ x`; the sublist `c :: rest` is contiguous from `c.local_x`,
its total length completes `X + sumLen cs`, and any successor line
starts strictly after `x`. -/
lemma lastIndexLE_split (x : Int) :
    ∀ (cs : List NewLineCtrl) (X : Int), contigFrom X cs → cs ≠ [] → X ≤ x →
    ∃ pre c rest, cs = pre ++ c :: rest ∧
      lastIndexLE cs x = pre.length ∧
      c.local_x ≤ x ∧
      contigFrom c.local_x (c :: rest) ∧
      c.local_x + sumLen (c :: rest) = X + sumLen cs ∧
      (∀ d, rest.head? = some d → x < d.local_x)
  | [], X, _, hne, _ => absurd rfl hne
  | [c], X, h, _, hX => by
    obtain ⟨hcx, hclen, -⟩ := h
    refine ⟨[], c, [], rfl, rfl, by omega, ⟨rfl, hclen, trivial⟩, by omega, ?_⟩
    intro d hd
    simp at hd
  | c1 :: c2 :: rest', X, h, _, hX => by
    obtain ⟨h1x, h1len, h2⟩ := h
    have h2x : c2.local_x = X + c1.length := h2.1
    by_cases hle : c2.local_x ≤ x
    · obtain ⟨pre, c, rest, hsplit, hidx, hcx, hcontig, hsum, hhead⟩ :=
        lastIndexLE_split x (c2 :: rest') (X + c1.length) h2 (by simp) (by omega)
      refine ⟨c1 :: pre, c, rest, by simp [hsplit], ?_, hcx, hcontig, ?_, hhead⟩
      · simp only [lastIndexLE, if_pos hle, hidx, List.length_cons]
      · have : sumLen (c1 :: c2 :: rest') = c1.length + sumLen (c2 :: rest') := by
          simp [sumLen]
        omega
    · refine ⟨[], c1, c2 :: rest', rfl, ?_, by omega,
        ⟨rfl, h1len, by rw [h1x]; exact h2⟩, by omega, ?_⟩
      · simp only [lastIndexLE, if_neg hle, List.length_nil]
      · intro d hd
        simp only [List.head?_cons, Option.some.injEq] at hd
        subst hd
        omega

/-- The final `remaining_x` of the spanning loop plus the widths of the
dispatched spanning segments equals the initial `remaining_x`. -/
lemma spanLoop_width (w y : Int) : ∀ (cs : List NewLineCtrl) (r : Int) (cur : NewLineCtrl),
    (spanLoop w y r cur cs).1 + sumWidths (spanLoop w y r cur cs).2.2 = r
  | [], r, cur => by simp [spanLoop, sumWidths]
  | c :: cs, r, cur => by
    by_cases hlt : c.length < r
    · have ih := spanLoop_width w y cs (r - c.length) c
      simp only [spanLoop, if_pos hlt, sumWidths, List.map_cons, List.sum_cons,
        segWidth, Point.add_def] at ih ⊢
      omega
    · simp [spanLoop, if_neg hlt, sumWidths]

/-- Every dispatch emitted by the spanning loop is a
spanning-continuation. -/
lemma spanLoop_all_spanning (w y : Int) :
    ∀ (cs : List NewLineCtrl) (r : Int) (cur : NewLineCtrl),
    ∀ call ∈ (spanLoop w y r cur cs).2.2, isSpanning call = true
  | [], r, cur => by simp [spanLoop]
  | c :: cs, r, cur => by
    by_cases hlt : c.length < r
    · intro call hcall
      simp only [spanLoop, if_pos hlt, List.mem_cons] at hcall
      rcases hcall with rfl | hmem
      · rfl
      · exact spanLoop_all_spanning w y cs (r - c.length) c call hmem
    · simp [spanLoop, if_neg hlt]

/-- Under contiguity, the number of spanning dispatches is one less
than the number of controllers in the list whose line start lies
strictly before the span end `E`, provided the span begins before `E`
and ends within the list's total flowed length. -/
lemma spanLoop_count (w y E : Int) :
    ∀ (cs : List NewLineCtrl) (X : Int) (cur : NewLineCtrl),
    contigFrom X cs → X < E → E ≤ X + sumLen cs →
    (spanLoop w y (E - X) cur cs).2.2.length + 1 =
      (cs.filter (fun c => decide (c.local_x < E))).length
  | [], X, cur, _, hXE, hEle => by
    simp only [sumLen, List.map_nil, List.sum_nil] at hEle
    omega
  | c :: cs, X, cur, h, hXE, hEle => by
    obtain ⟨hcx, hclen, htail⟩ := h
    have hsum : sumLen (c :: cs) = c.length + sumLen cs := by simp [sumLen]
    by_cases hlt : c.length < E - X
    · have ih := spanLoop_count w y E cs (X + c.length) c htail (by omega) (by omega)
      have harg : E - X - c.length = E - (X + c.length) := by omega
      simp only [spanLoop, if_pos hlt, List.length_cons, harg]
      rw [List.filter_cons_of_pos (by simp; omega)]
      simp only [List.length_cons]
      omega
    · simp only [spanLoop, if_neg hlt, List.length_nil]
      rw [List.filter_cons_of_pos (by simp; omega)]
      have hnone : cs.filter (fun d => decide (d.local_x < E)) = [] := by
        apply List.filter_eq_nil_iff.mpr
        intro d hd
        have := contig_mem_lb (X + c.length) cs htail d hd
        simp only [decide_eq_true_eq]
        omega
      rw [hnone]
      simp

lemma sumWidths_cons (c : RenderCall) (l : List RenderCall) :
    sumWidths (c :: l) = segWidth c + sumWidths l := by
  simp [sumWidths]

lemma sumWidths_append (l₁ l₂ : List RenderCall) :
    sumWidths (l₁ ++ l₂) = sumWidths l₁ + sumWidths l₂ := by
  simp [sumWidths]

lemma isComplete_of_spanning {c : RenderCall} (h : isSpanning c = true) :
    isComplete c = false := by
  cases c <;> simp_all [isSpanning, isComplete]

lemma isBefore_of_spanning {c : RenderCall} (h : isSpanning c = true) :
    isBefore c = false := by
  cases c <;> simp_all [isSpanning, isBefore]

lemma isAfter_of_spanning {c : RenderCall} (h : isSpanning c = true) :
    isAfter c = false := by
  cases c <;> simp_all [isSpanning, isAfter]

/-- The split path of `_render_flowable`, characterized: when the
breakable span of a node at in-range frame-local `(x, y)` reaches at
least one later controller (one line start falls strictly inside the
span) and ends within the frame, the dispatch list consists of exactly
one render-before-break, `linesCovered - 2` render-spanning-continuation
dispatches, and one render-after-break — `linesCovered` dispatches in
all, no full render — and the segment widths sum to `w`. -/
lemma render_flowable_split (cs : List NewLineCtrl) (x y w : Int)
    (hc : contigFrom 0 cs) (hne : cs ≠ []) (hx : 0 ≤ x)
    (hE : x + w ≤ sumLen cs)
    (hF : 1 ≤ ((cs.drop (lastIndexLE cs x + 1)).filter
        (fun c => decide (c.local_x < x + w))).length) :
    (render_flowable ⟨cs⟩ ⟨x, y, 0⟩ w).countP isComplete = 0 ∧
    (render_flowable ⟨cs⟩ ⟨x, y, 0⟩ w).countP isBefore = 1 ∧
    (render_flowable ⟨cs⟩ ⟨x, y, 0⟩ w).countP isSpanning + 2 = linesCovered ⟨cs⟩ x w ∧
    (render_flowable ⟨cs⟩ ⟨x, y, 0⟩ w).countP isAfter = 1 ∧
    (render_flowable ⟨cs⟩ ⟨x, y, 0⟩ w).length = linesCovered ⟨cs⟩ x w ∧
    sumWidths (render_flowable ⟨cs⟩ ⟨x, y, 0⟩ w) = w := by
  obtain ⟨pre, c₀, rest, hcs, hidx, hc0x, hcc, hsum, hhead⟩ :=
    lastIndexLE_split x cs 0 hc hne hx
  obtain ⟨-, hc0len, hcrest⟩ := hcc
  have hgetD : cs.getD (lastIndexLE cs x) default = c₀ := by
    rw [hidx, hcs]; exact getD_append_length default pre c₀ rest
  have hdrop : cs.drop (lastIndexLE cs x + 1) = rest := by
    rw [hidx, hcs]; exact drop_append_length_succ pre c₀ rest
  rw [hdrop] at hF
  have hrest_ne : rest ≠ [] := by
    intro h; rw [h] at hF; simp at hF
  obtain ⟨d, rest', rfl⟩ := List.exists_cons_of_ne_nil hrest_ne
  have hdx : d.local_x = c₀.local_x + c₀.length := hcrest.1
  have hxd : x < d.local_x := hhead d rfl
  have hX1E : c₀.local_x + c₀.length < x + w := by
    have hfil : (d :: rest').filter (fun c => decide (c.local_x < x + w)) ≠ [] :=
      List.ne_nil_of_length_pos (by omega)
    obtain ⟨cf, hcf⟩ := List.exists_mem_of_ne_nil _ hfil
    have hmem : cf ∈ d :: rest' := List.mem_of_mem_filter hcf
    have hpred : cf.local_x < x + w := by
      have hp := List.of_mem_filter hcf
      simpa using hp
    have hlb := contig_mem_lb (c₀.local_x + c₀.length) (d :: rest') hcrest cf hmem
    omega
  have hdist : Frame.dist_to_line_end ⟨cs⟩ x = x - (c₀.local_x + c₀.length) := by
    simp only [Frame.dist_to_line_end, Frame.last_break_index_at, hgetD]
  have hcond : ¬ (w + Frame.dist_to_line_end ⟨cs⟩ x < 0) := by
    rw [hdist]; omega
  have hsumcs : sumLen cs = c₀.local_x + c₀.length + sumLen (d :: rest') := by
    have h1 : sumLen (c₀ :: d :: rest') = c₀.length + sumLen (d :: rest') := by
      simp [sumLen]
    omega
  have hflow : render_flowable ⟨cs⟩ ⟨x, y, 0⟩ w =
      RenderCall.before 0 (Frame.map_to_doc ⟨cs⟩ ⟨x, y, 0⟩)
          (Frame.map_to_doc ⟨cs⟩ ⟨x, y, 0⟩ +
            ⟨Frame.dist_to_line_end ⟨cs⟩ x * (-1), 0, 0⟩) ::
        (spanLoop w y (w + Frame.dist_to_line_end ⟨cs⟩ x) c₀ (d :: rest')).2.2 ++
        [RenderCall.after
          (w - (spanLoop w y (w + Frame.dist_to_line_end ⟨cs⟩ x) c₀ (d :: rest')).1)
          (Frame.map_to_doc ⟨cs⟩
            ⟨(spanLoop w y (w + Frame.dist_to_line_end ⟨cs⟩ x) c₀ (d :: rest')).2.1.local_x,
              y, 0⟩)
          (Frame.map_to_doc ⟨cs⟩
            ⟨(spanLoop w y (w + Frame.dist_to_line_end ⟨cs⟩ x) c₀ (d :: rest')).2.1.local_x,
              y, 0⟩ +
            ⟨(spanLoop w y (w + Frame.dist_to_line_end ⟨cs⟩ x) c₀ (d :: rest')).1, 0, 0⟩)] := by
    simp only [render_flowable, Frame.last_break_index_at]
    rw [if_neg hcond, hgetD, hdrop]
  have hspan_all := spanLoop_all_spanning w y (d :: rest')
    (w + Frame.dist_to_line_end ⟨cs⟩ x) c₀
  have hspan_w := spanLoop_width w y (d :: rest')
    (w + Frame.dist_to_line_end ⟨cs⟩ x) c₀
  have hcount : (spanLoop w y (w + Frame.dist_to_line_end ⟨cs⟩ x) c₀ (d :: rest')).2.2.length
      + 1 = ((d :: rest').filter (fun c => decide (c.local_x < x + w))).length := by
    have harg : w + Frame.dist_to_line_end ⟨cs⟩ x = (x + w) - (c₀.local_x + c₀.length) := by
      rw [hdist]; ring
    rw [harg]
    exact spanLoop_count w y (x + w) (d :: rest') (c₀.local_x + c₀.length) c₀
      hcrest hX1E (by omega)
  have hlc : linesCovered ⟨cs⟩ x w =
      1 + ((d :: rest').filter (fun c => decide (c.local_x < x + w))).length := by
    simp only [linesCovered, Frame.last_break_index_at]
    rw [hdrop]
  rw [hflow]
  have hczero : ∀ (p : RenderCall → Bool),
      (∀ c, isSpanning c = true → p c = false) →
      (spanLoop w y (w + Frame.dist_to_line_end ⟨cs⟩ x) c₀ (d :: rest')).2.2.countP p = 0 :=
    fun p hp => List.countP_eq_zero.mpr (fun a ha => by
      rw [hp a (hspan_all a ha)]; simp)
  have hspancnt : ((spanLoop w y (w + Frame.dist_to_line_end ⟨cs⟩ x) c₀
      (d :: rest')).2.2).countP isSpanning =
      (spanLoop w y (w + Frame.dist_to_line_end ⟨cs⟩ x) c₀ (d :: rest')).2.2.length :=
    List.countP_eq_length.mpr (fun a ha => hspan_all a ha)
  refine ⟨?_, ?_, ?_, ?_, ?_, ?_⟩
  · simp only [List.countP_cons, List.countP_append,
      hczero isComplete (fun c h => isComplete_of_spanning h)]
    simp [isComplete]
  · simp only [List.countP_cons, List.countP_append,
      hczero isBefore (fun c h => isBefore_of_spanning h)]
    simp [isBefore]
  · simp only [List.countP_cons, List.countP_append, hspancnt]
    rw [hlc]
    simp only [List.countP_cons, List.countP_nil, isSpanning]
    norm_num
    omega
  · simp only [List.countP_cons, List.countP_append,
      hczero isAfter (fun c h => isAfter_of_spanning h)]
    simp [isAfter]
  · simp only [List.length_cons, List.length_append, List.length_nil]
    rw [hlc]
    omega
  · rw [sumWidths_append, sumWidths_cons]
    simp only [sumWidths, List.map_cons, List.map_nil, List.sum_cons, List.sum_nil,
      segWidth, Point.add_def]
    rw [hdist] at hspan_w ⊢
    simp only [sumWidths] at hspan_w
    omega

/-- A three-line frame for exercising the multi-line split path:
lines of length 100, 80 and 90 starting at absolute
(0,0,page 0), (0,50,page 0) and (0,100,page 0). -/
def csA : List NewLineCtrl :=
  [⟨0, ⟨0, 0, 0⟩, 100⟩, ⟨100, ⟨0, 50, 0⟩, 80⟩, ⟨180, ⟨0, 100, 0⟩, 90⟩]

/-- The spec's two-line scenario frame: line 1 of length 100 starting
at absolute (0,0) page 0, line 2 of length 80 starting at absolute
(0,50) page 0. -/
def csB : List NewLineCtrl :=
  [⟨0, ⟨0, 0, 0⟩, 100⟩, ⟨100, ⟨0, 50, 0⟩, 80⟩]

/-- C1: for a node in a frame whose breakable span covers
`k = linesCovered ≥ 3` lines, a single `render()` call (which for a
node inside a frame dispatches through `_render_flowable`,
graphic_object.py lines 199-200) issues exactly `k` dispatches — one
render-before-break, `k - 2` render-spanning-continuations, one
render-after-break, and no full render — and the widths of the
dispatched segments sum exactly to the node's `breakable_width`. -/
theorem render_flowable_k_lines (cs : List NewLineCtrl) (x y w : Int)
    (hc : contigFrom 0 cs) (hne : cs ≠ []) (hx : 0 ≤ x)
    (hend : x + w ≤ sumLen cs)
    (hk : 3 ≤ linesCovered ⟨cs⟩ x w) :
    (render_flowable ⟨cs⟩ ⟨x, y, 0⟩ w).countP isBefore = 1 ∧
    (render_flowable ⟨cs⟩ ⟨x, y, 0⟩ w).countP isSpanning = linesCovered ⟨cs⟩ x w - 2 ∧
    (render_flowable ⟨cs⟩ ⟨x, y, 0⟩ w).countP isAfter = 1 ∧
    (render_flowable ⟨cs⟩ ⟨x, y, 0⟩ w).countP isComplete = 0 ∧
    (render_flowable ⟨cs⟩ ⟨x, y, 0⟩ w).length = linesCovered ⟨cs⟩ x w ∧
    sumWidths (render_flowable ⟨cs⟩ ⟨x, y, 0⟩ w) = w := by
  have hF : 1 ≤ ((cs.drop (lastIndexLE cs x + 1)).filter
      (fun c => decide (c.local_x < x + w))).length := by
    simp only [linesCovered, Frame.last_break_index_at] at hk
    omega
  obtain ⟨h1, h2, h3, h4, h5, h6⟩ := render_flowable_split cs x y w hc hne hx hend hF
  exact ⟨h2, by omega, h4, h1, h5, h6⟩

/-- Witness for C1: node at frame-local x = 90 with breakable width 150
in the three-line frame `csA` covers 3 lines (segments 10 + 80 + 60). -/
theorem render_flowable_k_lines_witness :
    (contigFrom 0 csA ∧ csA ≠ [] ∧ (0:Int) ≤ 90 ∧
      (90:Int) + 150 ≤ sumLen csA ∧ 3 ≤ linesCovered ⟨csA⟩ 90 150) ∧
    ((render_flowable ⟨csA⟩ ⟨90, 0, 0⟩ 150).countP isBefore = 1 ∧
     (render_flowable ⟨csA⟩ ⟨90, 0, 0⟩ 150).countP isSpanning =
       linesCovered ⟨csA⟩ 90 150 - 2 ∧
     (render_flowable ⟨csA⟩ ⟨90, 0, 0⟩ 150).countP isAfter = 1 ∧
     (render_flowable ⟨csA⟩ ⟨90, 0, 0⟩ 150).countP isComplete = 0 ∧
     (render_flowable ⟨csA⟩ ⟨90, 0, 0⟩ 150).length = linesCovered ⟨csA⟩ 90 150 ∧
     sumWidths (render_flowable ⟨csA⟩ ⟨90, 0, 0⟩ 150) = 150) :=
  ⟨⟨by decide, by decide, by decide, by decide, by decide⟩,
    render_flowable_k_lines csA 90 0 150 (by decide) (by decide) (by decide)
      (by decide) (by decide)⟩

/-- C2: for a node whose breakable span covers exactly two lines,
`render()` issues exactly one render-before-break and one
render-after-break dispatch (no spanning continuation, no full render)
whose segment widths sum to `breakable_width`; and in the spec's
concrete scenario (frame `csB`, node at frame-local x = 90 with
breakable width 40) the before-break segment has width 10 starting at
absolute (90,0,page 0) and the after-break segment width 30 starting
at absolute (0,50,page 0). -/
theorem render_flowable_two_line_split (cs : List NewLineCtrl) (x y w : Int)
    (hc : contigFrom 0 cs) (hne : cs ≠ []) (hx : 0 ≤ x)
    (hend : x + w ≤ sumLen cs)
    (hk : linesCovered ⟨cs⟩ x w = 2) :
    ((render_flowable ⟨cs⟩ ⟨x, y, 0⟩ w).countP isBefore = 1 ∧
     (render_flowable ⟨cs⟩ ⟨x, y, 0⟩ w).countP isAfter = 1 ∧
     (render_flowable ⟨cs⟩ ⟨x, y, 0⟩ w).countP isSpanning = 0 ∧
     (render_flowable ⟨cs⟩ ⟨x, y, 0⟩ w).countP isComplete = 0 ∧
     (render_flowable ⟨cs⟩ ⟨x, y, 0⟩ w).length = 2 ∧
     sumWidths (render_flowable ⟨cs⟩ ⟨x, y, 0⟩ w) = w) ∧
    render_flowable ⟨csB⟩ ⟨90, 0, 0⟩ 40 =
      [RenderCall.before 0 ⟨90, 0, 0⟩ ⟨100, 0, 0⟩,
       RenderCall.after 10 ⟨0, 50, 0⟩ ⟨30, 50, 0⟩] := by
  refine ⟨?_, by decide⟩
  have hF : 1 ≤ ((cs.drop (lastIndexLE cs x + 1)).filter
      (fun c => decide (c.local_x < x + w))).length := by
    simp only [linesCovered, Frame.last_break_index_at] at hk
    omega
  obtain ⟨h1, h2, h3, h4, h5, h6⟩ := render_flowable_split cs x y w hc hne hx hend hF
  exact ⟨h2, h4, by omega, h1, by omega, h6⟩

/-- Witness for C2 at the spec scenario itself: frame `csB`, node at
frame-local x = 90 with breakable width 40 covers exactly two lines. -/
theorem render_flowable_two_line_split_witness :
    (contigFrom 0 csB ∧ csB ≠ [] ∧ (0:Int) ≤ 90 ∧
      (90:Int) + 40 ≤ sumLen csB ∧ linesCovered ⟨csB⟩ 90 40 = 2) ∧
    ((render_flowable ⟨csB⟩ ⟨90, 0, 0⟩ 40).countP isBefore = 1 ∧
     (render_flowable ⟨csB⟩ ⟨90, 0, 0⟩ 40).countP isAfter = 1 ∧
     (render_flowable ⟨csB⟩ ⟨90, 0, 0⟩ 40).countP isSpanning = 0 ∧
     (render_flowable ⟨csB⟩ ⟨90, 0, 0⟩ 40).countP isComplete = 0 ∧
     (render_flowable ⟨csB⟩ ⟨90, 0, 0⟩ 40).length = 2 ∧
     sumWidths (render_flowable ⟨csB⟩ ⟨90, 0, 0⟩ 40) = 40) :=
  ⟨⟨by decide, by decide, by decide, by decide, by decide⟩,
    (render_flowable_two_line_split csB 90 0 40 (by decide) (by decide) (by decide)
      (by decide) (by decide)).1⟩

/-- C3 (counterexample): the claim's boundary `localPos.x + w <=
line_end` is too weak — the code's fast path requires the strict
inequality `remaining_x < 0` (graphic_object.py line 263). In frame
`csB`, a node at frame-local x = 60 with breakable width 40 satisfies
all of the claim's hypotheses (w ≥ 0; positioned strictly before the
last controller; `x + w = 100 = line_end`), yet `render()` does not
issue a single full-render dispatch: it issues a before-break dispatch
of width 40 and a degenerate after-break dispatch of width 0 at the
start of the next line. -/
theorem render_flowable_boundary_not_fast_path :
    ((0:Int) ≤ 40 ∧
     Frame.last_break_index_at ⟨csB⟩ 60 + 1 < csB.length ∧
     (60:Int) + 40 ≤ (csB.getD (Frame.last_break_index_at ⟨csB⟩ 60) default).local_x +
       (csB.getD (Frame.last_break_index_at ⟨csB⟩ 60) default).length) ∧
    ¬ ((render_flowable ⟨csB⟩ ⟨60, 0, 0⟩ 40).countP isComplete = 1 ∧
       (render_flowable ⟨csB⟩ ⟨60, 0, 0⟩ 40).countP isBefore = 0 ∧
       (render_flowable ⟨csB⟩ ⟨60, 0, 0⟩ 40).countP isSpanning = 0 ∧
       (render_flowable ⟨csB⟩ ⟨60, 0, 0⟩ 40).countP isAfter = 0) ∧
    render_flowable ⟨csB⟩ ⟨60, 0, 0⟩ 40 =
      [RenderCall.before 0 ⟨60, 0, 0⟩ ⟨100, 0, 0⟩,
       RenderCall.after 40 ⟨0, 50, 0⟩ ⟨0, 50, 0⟩] := by
  decide

/-- C3 (amended: strict inequality): for every `w ≥ 0` and node
positioned strictly before the frame's last controller with
`localPos.x + w < line_end` (strictly), `render()` takes the fast
path: exactly one full-render dispatch of the whole node (which has
width `w`) at its absolute position, and no partial dispatches. -/
theorem render_flowable_fast_path (cs : List NewLineCtrl) (x y w : Int)
    (hw : 0 ≤ w)
    (hbefore_last : lastIndexLE cs x + 1 < cs.length)
    (hfit : x + w < (cs.getD (lastIndexLE cs x) default).local_x +
      (cs.getD (lastIndexLE cs x) default).length) :
    render_flowable ⟨cs⟩ ⟨x, y, 0⟩ w =
      [RenderCall.complete (Frame.map_to_doc ⟨cs⟩ ⟨x, y, 0⟩)] := by
  have hdist : Frame.dist_to_line_end ⟨cs⟩ x =
      x - ((cs.getD (lastIndexLE cs x) default).local_x +
        (cs.getD (lastIndexLE cs x) default).length) := rfl
  have hcond : w + Frame.dist_to_line_end ⟨cs⟩ x < 0 := by omega
  simp only [render_flowable]
  rw [if_pos hcond]

/-- Witness for C3's amended theorem: frame `csB`, node at frame-local
x = 60 with breakable width 30 (60 + 30 < 100). -/
theorem render_flowable_fast_path_witness :
    ((0:Int) ≤ 30 ∧ lastIndexLE csB 60 + 1 < csB.length ∧
     (60:Int) + 30 < (csB.getD (lastIndexLE csB 60) default).local_x +
       (csB.getD (lastIndexLE csB 60) default).length) ∧
    render_flowable ⟨csB⟩ ⟨60, 0, 0⟩ 30 =
      [RenderCall.complete (Frame.map_to_doc ⟨csB⟩ ⟨60, 0, 0⟩)] :=
  ⟨⟨by decide, by decide, by decide⟩,
    render_flowable_fast_path csB 60 0 30 (by decide) (by decide) (by decide)⟩

/-- C4: a node with `breakable_width = 0` at any in-frame position —
`0 ≤ x < sumLen cs`, which includes positions exactly at the end of any
non-final line, since such a position coincides with the next line's
start — always takes the fast path: exactly one full-render dispatch at
the node's absolute document position, for every well-formed controller
list. (A local x equal to the total flowed length lies beyond the
frame's declared controllers and is out of the frame's domain.) -/
theorem render_flowable_zero_width (cs : List NewLineCtrl) (x y : Int)
    (hc : contigFrom 0 cs) (hne : cs ≠ []) (hx : 0 ≤ x)
    (hxe : x < sumLen cs) :
    render_flowable ⟨cs⟩ ⟨x, y, 0⟩ 0 =
      [RenderCall.complete (Frame.map_to_doc ⟨cs⟩ ⟨x, y, 0⟩)] := by
  obtain ⟨pre, c₀, rest, hcs, hidx, hc0x, hcc, hsum, hhead⟩ :=
    lastIndexLE_split x cs 0 hc hne hx
  obtain ⟨-, hc0len, hcrest⟩ := hcc
  have hgetD : cs.getD (lastIndexLE cs x) default = c₀ := by
    rw [hidx, hcs]; exact getD_append_length default pre c₀ rest
  have hxlt : x < c₀.local_x + c₀.length := by
    cases rest with
    | nil =>
      have h1 : sumLen (c₀ :: ([] : List NewLineCtrl)) = c₀.length := by
        simp [sumLen]
      omega
    | cons d rest' =>
      have hdx : d.local_x = c₀.local_x + c₀.length := hcrest.1
      have hxd := hhead d rfl
      omega
  have hcond : (0:Int) + Frame.dist_to_line_end ⟨cs⟩ x < 0 := by
    have hdist : Frame.dist_to_line_end ⟨cs⟩ x = x - (c₀.local_x + c₀.length) := by
      simp only [Frame.dist_to_line_end, Frame.last_break_index_at, hgetD]
    omega
  simp only [render_flowable]
  rw [if_pos hcond]

/-- Witness for C4: frame `csB`, node with zero breakable width at
frame-local x = 100 — exactly at line 1's end, which is line 2's
start. -/
theorem render_flowable_zero_width_witness :
    (contigFrom 0 csB ∧ csB ≠ [] ∧ (0:Int) ≤ 100 ∧ (100:Int) < sumLen csB) ∧
    render_flowable ⟨csB⟩ ⟨100, 5, 0⟩ 0 =
      [RenderCall.complete (Frame.map_to_doc ⟨csB⟩ ⟨100, 5, 0⟩)] :=
  ⟨⟨by decide, by decide, by decide, by decide⟩,
    render_flowable_zero_width csB 100 5 (by decide) (by decide) (by decide)
      (by decide)⟩

end Brown
